import Mathlib

/-!
Jeopardy board: a model of `jeopardy.js`.

The development embeds the trivia board of `src/jeopardy/jeopardy.js`:

* the board data (`categories`, an array of `{title, clues}` objects whose
  clues are `{question, answer, showing}`),
* the click handler `handleClick`, which decodes a cell id of the form
  `catIdx-clueIdx` and advances the `.showing` property of the addressed clue,
* the table builder `fillTable`, which writes those cell ids,
* the board construction `getCategoryIds` / `getCategory` / `setupAndStart`,
  with the data source and the random draws as explicit inputs.

A raised JavaScript exception is an outcome `Except.error`; `undefined` is
`none`.  The calls of `console.error`, the start button and the loading
spinner act on neither the board nor the table and are left out.
-/

namespace Jeopardy

/-! ## Constants and data -/

/-- The constant `NUM_CATEGORIES` (line 2). -/
def NUM_CATEGORIES : Nat := 6

/-- The constant `NUM_CLUES_PER_CAT` (line 3). -/
def NUM_CLUES_PER_CAT : Nat := 5

/-- A JavaScript string used as an element id or property key, as its
sequence of characters. -/
abbrev JsString := List Char

/-- The values the program stores in the `.showing` property of a clue:
`null` (written by `getCategory`), `'question'` and `'answer'` (written by
`handleClick`). -/
inductive Showing where
  | null
  | question
  | answer
  deriving DecidableEq, Repr

/-- A clue object `{question, answer, showing}` of the board. -/
structure Clue where
  question : String
  answer : String
  showing : Showing
  deriving DecidableEq, Repr

/-- A category object `{title, clues}` of the board. -/
structure Category where
  title : String
  clues : List Clue
  deriving DecidableEq, Repr

/-- The global array `categories` (line 25).  An element is `none` when
`setupAndStart` pushed the `undefined` that `getCategory` returns after a
failed request. -/
abbrev Categories := List (Option Category)

/-- The exception raised by the JavaScript runtime when a property of
`undefined` is read. -/
inductive JsError where
  | typeError
  deriving DecidableEq, Repr

/-- What `handleClick` does to the clicked element: `$tgt.html(message)`, and
whether `$tgt.addClass('disabled')` ran before it. -/
structure DomUpdate where
  html : String
  disabled : Bool
  deriving DecidableEq, Repr

/-! ## Strings, cell ids and property keys -/

/-- The string a template literal produces for an integer: its decimal
digits, with a leading `-` when it is negative (the form JavaScript gives
every integer of magnitude below ten to the 21). -/
def numberToString : Int → JsString
  | Int.ofNat n => Nat.toDigits 10 n
  | Int.negSucc n => '-' :: Nat.toDigits 10 (n + 1)

/-- The id that `fillTable` gives the cell of clue `clueIdx` of category
`catIdx`: the template literal of line 97, the two numbers joined by `-`. -/
def cellId (catIdx clueIdx : Int) : JsString :=
  numberToString catIdx ++ '-' :: numberToString clueIdx

/-- The call `id.split('-')`: the pieces of the string between the dashes.
A string without a dash is its only piece. -/
def split : JsString → List JsString
  | [] => [[]]
  | ch :: rest =>
    if ch = '-' then [] :: split rest
    else
      match split rest with
      | [] => [[ch]]
      | piece :: pieces => (ch :: piece) :: pieces

/-- The number a string of decimal digits denotes. -/
def decimalValue (key : JsString) : Nat :=
  key.foldl (fun acc ch => 10 * acc + (ch.toNat - 48)) 0

/-- The array index a property key denotes, if any: a key is an array
index exactly when it is the decimal string of a number (no sign, no leading
zero, not empty). -/
def arrayIndex (key : JsString) : Option Nat :=
  if Nat.toDigits 10 (decimalValue key) = key then some (decimalValue key) else none

/-- The property read `array[key]`, where `key` is a piece bound by the
destructuring of line 121 (`none` is `undefined`, for a piece that does not
exist).  The result is the element at the index the key denotes, and `none`
(`undefined`) when the key is no index of the array.  The keys that reach this
read are the pieces of a cell id, which are digit strings or empty, so no key
names a method or the length of the array. -/
def propertyAt {α : Type} (array : List α) (key : Option JsString) : Option (Nat × α) :=
  match key with
  | none => none
  | some key =>
    match arrayIndex key with
    | none => none
    | some i =>
      match array[i]? with
      | none => none
      | some value => some (i, value)

/-! ## The click handler -/

/-- The assignment `clue.showing = value` of lines 128 and 131, on the clue
object `clue` held at index `clueIdx` of the clues of `category`, itself held
at index `catIdx` of the board: the board is the same but for that property. -/
def assignShowing (categories : Categories) (catIdx : Nat) (category : Category)
    (clueIdx : Nat) (clue : Clue) (value : Showing) : Categories :=
  categories.set catIdx
    (some { category with clues := category.clues.set clueIdx { clue with showing := value } })

/-- The function `handleClick` (lines 118-137) on the board `categories`,
for a click whose target has the id attribute `id` (`none` when the target has
no id).  The result is the board after the call and its outcome: the update
made to the target, `none` when the click is ignored (the `return` of line
134), or the `TypeError` raised where the code reads a property of
`undefined` (lines 121, 122 and 126, all before the first assignment, so the
board is then the one before the call). -/
def handleClick (categories : Categories) (id : Option JsString) :
    Categories × Except JsError (Option DomUpdate) :=
  match id with
  | none => (categories, .error .typeError)
  | some id =>
    let parts := split id
    let catId := parts[0]?
    let clueId := parts[1]?
    match propertyAt categories catId with
    | none => (categories, .error .typeError)
    | some (_, none) => (categories, .error .typeError)
    | some (catIdx, some category) =>
      match propertyAt category.clues clueId with
      | none => (categories, .error .typeError)
      | some (clueIdx, clue) =>
        match clue.showing with
        | .null =>
          (assignShowing categories catIdx category clueIdx clue .question,
            .ok (some { html := clue.question, disabled := false }))
        | .question =>
          (assignShowing categories catIdx category clueIdx clue .answer,
            .ok (some { html := clue.answer, disabled := true }))
        | .answer => (categories, .ok none)

/-- The clicks of a list of target ids, handled one after the other: the
board after each click and the outcome of each call. -/
def handleClicks :
    Categories → List (Option JsString) → List (Categories × Except JsError (Option DomUpdate))
  | _, [] => []
  | categories, id :: ids =>
    handleClick categories id :: handleClicks (handleClick categories id).1 ids

/-- The clue at a coordinate of the board, when the coordinate addresses
one. -/
def clueAt (categories : Categories) (catIdx clueIdx : Nat) : Option Clue :=
  match categories[catIdx]? with
  | some (some category) => category.clues[clueIdx]?
  | _ => none

/-- The `.showing` property of the clue at a coordinate. -/
def showingAt (categories : Categories) (catIdx clueIdx : Nat) : Option Showing :=
  (clueAt categories catIdx clueIdx).map Clue.showing

/-- The states a clue goes through: its `.showing` on the board before the
clicks and on the board after each of them. -/
def statesVisited (categories : Categories) (ids : List (Option JsString))
    (catIdx clueIdx : Nat) : List (Option Showing) :=
  (categories :: (handleClicks categories ids).map Prod.fst).map
    fun board => showingAt board catIdx clueIdx

/-- The position of a state in the order null, question, answer. -/
def Showing.rank : Showing → Nat
  | .null => 0
  | .question => 1
  | .answer => 2

/-- One step of the life of a clue: the state stays, or moves from null to
'question', or from 'question' to 'answer'. -/
def Showing.step (s t : Option Showing) : Prop :=
  t = s ∨ (s = some .null ∧ t = some .question) ∨ (s = some .question ∧ t = some .answer)

/-- The states still ahead of a state, itself included. -/
def Showing.ahead : Showing → List (Option Showing)
  | .null => [some .null, some .question, some .answer]
  | .question => [some .question, some .answer]
  | .answer => [some .answer]

/-! ## The table -/

/-- The table `#game`: the rows of its head (the text of each header
cell) and the rows of its body (the id of each cell). -/
structure Table where
  thead : List (List String)
  tbody : List (List JsString)
  deriving DecidableEq, Repr

/-- The page state the program works on: the global `categories` and the
table. -/
structure Page where
  categories : Categories
  table : Table
  deriving DecidableEq, Repr

/-- The function `showLoadingView` (lines 143-151) on the table: head and
body are emptied. -/
def showLoadingView (_table : Table) : Table :=
  { thead := [], tbody := [] }

/-- The header loop of `fillTable` (lines 86-88): the title of each
category, or `none` when reading `.title` of an `undefined` element raises. -/
def headerRow : Categories → Option (List String)
  | [] => some []
  | none :: _ => none
  | some category :: rest => (headerRow rest).map (category.title :: ·)

/-- The body loops of `fillTable` (lines 93-101): `NUM_CLUES_PER_CAT` rows of
`NUM_CATEGORIES` cells, the cell of column `catIdx` in row `clueIdx` having
the id `catIdx-clueIdx`. -/
def bodyRows : List (List JsString) :=
  (List.range NUM_CLUES_PER_CAT).map fun (clueIdx : Nat) =>
    (List.range NUM_CATEGORIES).map fun (catIdx : Nat) => cellId catIdx clueIdx

/-- The function `fillTable` (lines 82-108): the header row is appended to
the head and the body is replaced by the rows of cells.  When the header loop
raises, the exception is caught at line 103 and the table is left as it
was. -/
def fillTable (categories : Categories) (table : Table) : Table :=
  match headerRow categories with
  | none => table
  | some titles => { thead := table.thead ++ [titles], tbody := bodyRows }

/-- The ids of the cells of a table. -/
def renderedCells (table : Table) : List JsString :=
  table.tbody.flatten

/-! ## The data source and the sampling -/

/-- An element of the response of the `categories` request. -/
structure CategoryEntry where
  id : Nat
  title : String
  deriving DecidableEq, Repr

/-- A clue of the response of the `category` request. -/
structure SourceClue where
  question : String
  answer : String
  deriving DecidableEq, Repr

/-- The response of the `category` request. -/
structure CategoryData where
  title : String
  clues : List SourceClue
  deriving DecidableEq, Repr

/-- The data source: the response of the `categories` request and of the
`category` request for each id, `none` when the request (or the reading of its
response inside the `try` block) raises. -/
structure DataSource where
  categories : Option (List CategoryEntry)
  category : Nat → Option CategoryData

/-- Modelled from the spec: `_.sampleSize` belongs to the lodash library,
which is not among the sources.  The spec has it choose the requested number
of elements at random without replacement and return as many as available
when the pool has fewer.  Each draw takes one element out of what is left of
the pool, at the position given by the next random number `rand 0`, `rand 1`,
and so on. -/
def sampleSize {α : Type} (rand : Nat → Nat) : List α → Nat → List α
  | [], _ => []
  | _ :: _, 0 => []
  | x :: xs, n + 1 =>
    let i := rand 0 % (x :: xs).length
    (x :: xs).getD i x :: sampleSize (fun j => rand (j + 1)) ((x :: xs).eraseIdx i) n

/-- The positions of the pool that `sampleSize` draws from, in the order of
the draws, for a pool of the given length. -/
def samplePositions (rand : Nat → Nat) (length n : Nat) : List Nat :=
  sampleSize rand (List.range length) n

/-- The function `getCategoryIds` (lines 33-41): the ids of the response,
sampled; `none` is the `undefined` returned after the `catch`. -/
def getCategoryIds (source : DataSource) (rand : Nat → Nat) : Option (List Nat) :=
  match source.categories with
  | none => none
  | some data => some (sampleSize rand (data.map fun c => c.id) NUM_CATEGORIES)

/-- The function `getCategory` (lines 55-72): the title of the response and
its clues, sampled and rebuilt with `showing: null`; `none` is the `undefined`
returned after the `catch`. -/
def getCategory (source : DataSource) (rand : Nat → Nat) (catId : Nat) : Option Category :=
  match source.category catId with
  | none => none
  | some cat =>
    some
      { title := cat.title
        clues := (sampleSize rand cat.clues NUM_CLUES_PER_CAT).map fun c =>
          { question := c.question, answer := c.answer, showing := .null } }

/-- The loop of lines 177-179: the result of `getCategory` for each id is
pushed on the board, in order.  The call for the id at position `i` uses the
random numbers `rand i`. -/
def fetchCategories (source : DataSource) (rand : Nat → Nat → Nat) :
    Nat → List Nat → Categories
  | _, [] => []
  | i, id :: ids => getCategory source (rand i) id :: fetchCategories source rand (i + 1) ids

/-- The function `setupAndStart` (lines 168-185) on the page.  `loading` is
the value of the test of line 170; `rand 0` are the random numbers of
`getCategoryIds` and `rand (i + 1)` those of the call of `getCategory` at
position `i`.  When `getCategoryIds` returns `undefined` the loop of line 177
raises, after the board was emptied at line 175, and the exception is caught
at line 182.  The function raises nothing itself. -/
def setupAndStart (source : DataSource) (rand : Nat → Nat → Nat) (loading : Bool)
    (page : Page) : Page :=
  if loading then page
  else
    let table := showLoadingView page.table
    match getCategoryIds source (rand 0) with
    | none => { categories := [], table := table }
    | some catIds =>
      let categories := fetchCategories source (fun i => rand (i + 1)) 0 catIds
      { categories := categories, table := fillTable categories table }

/-! ## Example inputs -/

/-- The board used in the examples: one category "Math" with the clue
"2+2" hidden and the clue "1+1" already answered. -/
def exampleBoard : Categories :=
  [some { title := "Math",
          clues := [{ question := "2+2", answer := "4", showing := .null },
                    { question := "1+1", answer := "2", showing := .answer }] }]

/-- A page before the first game: no board, an empty table. -/
def emptyPage : Page :=
  { categories := [], table := { thead := [], tbody := [] } }

/-- A catalog of eight categories, with the ids 0 to 7. -/
def exampleEntries : List CategoryEntry :=
  (List.range 8).map fun i => { id := i, title := "T" }

/-- A pool of clues of the given size, with pairwise distinct questions. -/
def exampleClues (size : Nat) : List SourceClue :=
  (List.range size).map fun j => { question := String.mk [Char.ofNat (97 + j)], answer := "a" }

/-- A data source that answers every request, with seven clues for every
category. -/
def fullSource : DataSource :=
  { categories := some exampleEntries
    category := fun _ => some { title := "C", clues := exampleClues 7 } }

/-- A data source that answers every request, with two clues only for the
category 0 and seven for the others. -/
def shortSource : DataSource :=
  { categories := some exampleEntries
    category := fun id => some { title := "C", clues := exampleClues (if id = 0 then 2 else 7) } }

/-- A data source whose request for the category 1 fails. -/
def failingSource : DataSource :=
  { categories := some exampleEntries
    category := fun id => if id = 1 then none else some { title := "C", clues := exampleClues 7 } }

/-- Random numbers that are all zero: every draw takes the first element
left in the pool. -/
def firstDraws : Nat → Nat → Nat :=
  fun _ _ => 0

/-! ## Lemmas on cell ids -/

theorem digitChar_ne_dash (k : Nat) (h : k < 10) : Nat.digitChar k ≠ '-' := by
  interval_cases k <;> decide

theorem digitChar_value (k : Nat) (h : k < 10) : (Nat.digitChar k).toNat - 48 = k := by
  interval_cases k <;> rfl

theorem toDigitsCore_no_dash (fuel : Nat) :
    ∀ (n : Nat) (ds : List Char), '-' ∉ ds → '-' ∉ Nat.toDigitsCore 10 fuel n ds := by
  induction fuel with
  | zero => intro n ds h; simpa [Nat.toDigitsCore] using h
  | succ fuel ih =>
    intro n ds h
    have hd : '-' ∉ Nat.digitChar (n % 10) :: ds := by
      simp only [List.mem_cons, not_or]
      exact ⟨fun e => digitChar_ne_dash _ (Nat.mod_lt n (by omega)) e.symm, h⟩
    simp only [Nat.toDigitsCore]
    split_ifs
    · exact hd
    · exact ih _ _ hd

theorem toDigits_no_dash (n : Nat) : '-' ∉ Nat.toDigits 10 n :=
  toDigitsCore_no_dash _ _ _ (by simp)

theorem decimalValue_toDigitsCore (fuel : Nat) :
    ∀ (n : Nat) (ds : List Char), n < fuel →
      decimalValue (Nat.toDigitsCore 10 fuel n ds)
        = ds.foldl (fun acc ch => 10 * acc + (ch.toNat - 48)) n := by
  induction fuel with
  | zero => intro n ds h; omega
  | succ fuel ih =>
    intro n ds h
    simp only [Nat.toDigitsCore]
    split_ifs with h0
    · have hn : n < 10 := by
        by_contra hc
        have : 0 < n / 10 := Nat.div_pos (by omega) (by omega)
        omega
      have hv := digitChar_value _ (Nat.mod_lt n (show 0 < 10 by omega))
      rw [Nat.mod_eq_of_lt hn] at hv ⊢
      simp [decimalValue, hv]
    · have hlt : n / 10 < fuel := by
        have : n / 10 < n := Nat.div_lt_self (by omega) (by omega)
        omega
      rw [ih _ _ hlt]
      simp only [List.foldl_cons, digitChar_value _ (Nat.mod_lt n (by omega))]
      congr 1
      omega

theorem decimalValue_toDigits (n : Nat) : decimalValue (Nat.toDigits 10 n) = n := by
  unfold Nat.toDigits
  rw [decimalValue_toDigitsCore _ _ _ (by omega)]
  rfl

theorem arrayIndex_toDigits (n : Nat) : arrayIndex (Nat.toDigits 10 n) = some n := by
  simp [arrayIndex, decimalValue_toDigits]

theorem arrayIndex_nil : arrayIndex [] = none := by decide

theorem split_no_dash : ∀ (s : JsString), '-' ∉ s → split s = [s]
  | [], _ => rfl
  | ch :: rest, h => by
    simp only [List.mem_cons, not_or] at h
    have hne : ch ≠ '-' := fun e => h.1 e.symm
    simp [split, hne, split_no_dash rest h.2]

theorem split_append_dash : ∀ (s t : JsString), '-' ∉ s → split (s ++ '-' :: t) = s :: split t
  | [], t, _ => by simp [split]
  | ch :: rest, t, h => by
    simp only [List.mem_cons, not_or] at h
    have hne : ch ≠ '-' := fun e => h.1 e.symm
    simp [split, hne, split_append_dash rest t h.2]

theorem numberToString_natCast (n : Nat) : numberToString (n : Int) = Nat.toDigits 10 n := rfl

theorem split_cellId_nat (c k : Nat) :
    split (cellId c k) = [Nat.toDigits 10 c, Nat.toDigits 10 k] := by
  simp only [cellId, numberToString_natCast]
  rw [split_append_dash _ _ (toDigits_no_dash c), split_no_dash _ (toDigits_no_dash k)]

theorem propertyAt_toDigits {α : Type} (array : List α) (i : Nat) :
    propertyAt array (some (Nat.toDigits 10 i)) = (array[i]?).map (fun v => (i, v)) := by
  simp only [propertyAt, arrayIndex_toDigits]
  cases array[i]? <;> rfl

theorem propertyAt_index {α : Type} {array : List α} {key : Option JsString} {i : Nat} {v : α}
    (h : propertyAt array key = some (i, v)) : array[i]? = some v := by
  unfold propertyAt at h
  split at h
  · cases h
  · split at h
    · cases h
    · split at h
      · cases h
      · rename_i hv
        simp only [Option.some.injEq, Prod.mk.injEq] at h
        obtain ⟨rfl, rfl⟩ := h
        exact hv

/-- The handler on the id of a cell with natural coordinates, by what the
coordinates address. -/
theorem handleClick_cellId (categories : Categories) (c k : Nat) :
    handleClick categories (some (cellId c k)) =
      match categories[c]? with
      | some (some category) =>
        match category.clues[k]? with
        | some clue =>
          match clue.showing with
          | .null =>
            (assignShowing categories c category k clue .question,
              .ok (some { html := clue.question, disabled := false }))
          | .question =>
            (assignShowing categories c category k clue .answer,
              .ok (some { html := clue.answer, disabled := true }))
          | .answer => (categories, .ok none)
        | none => (categories, .error .typeError)
      | _ => (categories, .error .typeError) := by
  simp only [handleClick, split_cellId_nat, List.getElem?_cons_zero, List.getElem?_cons_succ,
    propertyAt_toDigits]
  cases hc : categories[c]? with
  | none => rfl
  | some oc =>
    cases oc with
    | none => rfl
    | some cat =>
      simp only [Option.map_some']
      cases hk : cat.clues[k]? with
      | none => rfl
      | some clue => rfl

theorem clueAt_eq_some {categories : Categories} {c k : Nat} {clue : Clue}
    (h : clueAt categories c k = some clue) :
    ∃ category, categories[c]? = some (some category) ∧ category.clues[k]? = some clue := by
  unfold clueAt at h
  split at h
  · rename_i category hc
    exact ⟨category, hc, h⟩
  · cases h

theorem clueAt_of_getElem? {categories : Categories} {c k : Nat} {category : Category}
    (hc : categories[c]? = some (some category)) :
    clueAt categories c k = category.clues[k]? := by
  simp [clueAt, hc]

theorem clueAt_assignShowing {categories : Categories} {c k : Nat} {category : Category}
    {clue : Clue} (hc : categories[c]? = some (some category))
    (hk : category.clues[k]? = some clue) (v : Showing) (i j : Nat) :
    clueAt (assignShowing categories c category k clue v) i j =
      if i = c ∧ j = k then some { clue with showing := v } else clueAt categories i j := by
  have hlt : c < categories.length := by
    by_contra hge
    rw [List.getElem?_eq_none (by omega)] at hc
    cases hc
  have hklt : k < category.clues.length := by
    by_contra hge
    rw [List.getElem?_eq_none (by omega)] at hk
    cases hk
  unfold assignShowing clueAt
  by_cases hi : i = c
  · subst hi
    rw [List.getElem?_set_self hlt, hc]
    by_cases hj : j = k
    · subst hj
      simp [List.getElem?_set_self hklt]
    · simp [List.getElem?_set_ne (Ne.symm hj), hj]
  · rw [List.getElem?_set_ne (Ne.symm hi)]
    simp [hi]

theorem length_assignShowing (categories : Categories) (c k : Nat) (category : Category)
    (clue : Clue) (v : Showing) :
    (assignShowing categories c category k clue v).length = categories.length := by
  simp [assignShowing]

theorem getElem?_assignShowing {categories : Categories} {c k : Nat} {category : Category}
    (hc : categories[c]? = some (some category)) (clue : Clue) (v : Showing) (i : Nat) :
    ((assignShowing categories c category k clue v)[i]?).map (Option.map Category.title)
        = (categories[i]?).map (Option.map Category.title) ∧
    ((assignShowing categories c category k clue v)[i]?).map
        (Option.map fun cat => cat.clues.length)
        = (categories[i]?).map (Option.map fun cat => cat.clues.length) := by
  have hlt : c < categories.length := by
    by_contra hge
    rw [List.getElem?_eq_none (by omega)] at hc
    cases hc
  unfold assignShowing
  by_cases hi : i = c
  · subst hi
    rw [List.getElem?_set_self hlt, hc]
    simp
  · rw [List.getElem?_set_ne (Ne.symm hi)]
    exact ⟨rfl, rfl⟩

/-- What a call of the handler can do to the board, whatever the id. -/
theorem handleClick_cases (categories : Categories) (id : Option JsString) :
    (handleClick categories id).1 = categories ∨
    ∃ c category k clue v, categories[c]? = some (some category) ∧
      category.clues[k]? = some clue ∧ clue.showing.rank + 1 = v.rank ∧
      (handleClick categories id).1 = assignShowing categories c category k clue v := by
  unfold handleClick
  split
  · exact Or.inl rfl
  · dsimp only
    split
    · exact Or.inl rfl
    · exact Or.inl rfl
    · rename_i catIdx category hcat
      split
      · exact Or.inl rfl
      · rename_i clueIdx clue hclue
        have hc := propertyAt_index hcat
        have hk := propertyAt_index hclue
        split
        · rename_i hs
          exact Or.inr ⟨catIdx, category, clueIdx, clue, .question, hc, hk, by rw [hs]; rfl, rfl⟩
        · rename_i hs
          exact Or.inr ⟨catIdx, category, clueIdx, clue, .answer, hc, hk, by rw [hs]; rfl, rfl⟩
        · exact Or.inl rfl

/-- One click moves the state of a clue by at most one step, forward. -/
theorem showingAt_handleClick (categories : Categories) (id : Option JsString) (i j : Nat) :
    showingAt (handleClick categories id).1 i j = showingAt categories i j ∨
    ∃ a b, showingAt categories i j = some a ∧
      showingAt (handleClick categories id).1 i j = some b ∧ a.rank + 1 = b.rank := by
  rcases handleClick_cases categories id with h | ⟨c, category, k, clue, v, hc, hk, hr, h⟩
  · rw [h]; exact Or.inl rfl
  · rw [h]
    unfold showingAt
    rw [clueAt_assignShowing hc hk]
    by_cases hij : i = c ∧ j = k
    · obtain ⟨rfl, rfl⟩ := hij
      right
      refine ⟨clue.showing, v, ?_, ?_, hr⟩
      · rw [clueAt_of_getElem? hc, hk]; rfl
      · simp
    · left
      simp [hij]

/-! ## Lemmas on the sampling -/

theorem map_eraseIdx {α β : Type} (f : α → β) :
    ∀ (l : List α) (i : Nat), (l.map f).eraseIdx i = (l.eraseIdx i).map f
  | [], _ => rfl
  | _ :: _, 0 => rfl
  | x :: xs, i + 1 => by simp [List.eraseIdx, map_eraseIdx f xs i]

theorem sampleSize_length {α : Type} (n : Nat) :
    ∀ (rand : Nat → Nat) (pool : List α), (sampleSize rand pool n).length = min n pool.length := by
  induction n with
  | zero =>
    intro rand pool
    cases pool <;> simp [sampleSize]
  | succ n ih =>
    intro rand pool
    cases pool with
    | nil => simp [sampleSize]
    | cons x xs =>
      have hlt : rand 0 % (x :: xs).length < (x :: xs).length := Nat.mod_lt _ (by simp)
      have he := List.length_eraseIdx_of_lt hlt
      simp only [List.length_cons] at he
      simp only [sampleSize, List.length_cons, ih, he]
      omega

theorem sampleSize_map {α β : Type} (f : α → β) (n : Nat) :
    ∀ (rand : Nat → Nat) (pool : List α),
      sampleSize rand (pool.map f) n = (sampleSize rand pool n).map f := by
  induction n with
  | zero =>
    intro rand pool
    cases pool <;> simp [sampleSize]
  | succ n ih =>
    intro rand pool
    cases pool with
    | nil => simp [sampleSize]
    | cons x xs =>
      have e : f x :: List.map f xs = (x :: xs).map f := rfl
      simp only [List.map_cons, sampleSize, List.length_cons, List.length_map]
      rw [e, map_eraseIdx, ih, List.getD_map]

theorem sampleSize_subset {α : Type} (n : Nat) :
    ∀ (rand : Nat → Nat) (pool : List α), ∀ a ∈ sampleSize rand pool n, a ∈ pool := by
  induction n with
  | zero =>
    intro rand pool a ha
    cases pool <;> simp [sampleSize] at ha
  | succ n ih =>
    intro rand pool a ha
    cases pool with
    | nil => simp [sampleSize] at ha
    | cons x xs =>
      have hlt : rand 0 % (x :: xs).length < (x :: xs).length := Nat.mod_lt _ (by simp)
      simp only [sampleSize, List.mem_cons] at ha
      rcases ha with ha | ha
      · rw [ha, List.getD_eq_getElem _ _ hlt]
        exact List.getElem_mem _
      · exact List.mem_of_mem_eraseIdx (ih _ _ a ha)

theorem sampleSize_nodup {α : Type} (n : Nat) :
    ∀ (rand : Nat → Nat) (pool : List α), pool.Nodup → (sampleSize rand pool n).Nodup := by
  induction n with
  | zero =>
    intro rand pool _
    cases pool <;> simp [sampleSize]
  | succ n ih =>
    intro rand pool hnd
    cases pool with
    | nil => simp [sampleSize]
    | cons x xs =>
      have hlt : rand 0 % (x :: xs).length < (x :: xs).length := Nat.mod_lt _ (by simp)
      simp only [sampleSize]
      rw [List.nodup_cons]
      refine ⟨fun hmem => ?_, ih _ _ (hnd.eraseIdx _)⟩
      have hmem' := sampleSize_subset n _ _ _ hmem
      rw [List.mem_eraseIdx_iff_getElem?] at hmem'
      obtain ⟨j, hj, hget⟩ := hmem'
      rw [List.getD_eq_getElem _ _ hlt] at hget
      have hjlt : j < (x :: xs).length := by
        by_contra hge
        rw [List.getElem?_eq_none (by omega)] at hget
        cases hget
      rw [List.getElem?_eq_getElem hjlt] at hget
      have := (List.Nodup.getElem_inj_iff hnd).mp (Option.some.inj hget)
      exact hj this

/-- The sample is the pool read at pairwise distinct positions. -/
theorem sampleSize_positions {α : Type} (rand : Nat → Nat) (pool : List α) (n : Nat) :
    (samplePositions rand pool.length n).Nodup ∧
    (∀ p ∈ samplePositions rand pool.length n, p < pool.length) ∧
    (sampleSize rand pool n).map some
      = (samplePositions rand pool.length n).map fun p => pool[p]? := by
  refine ⟨sampleSize_nodup _ _ _ (List.nodup_range _), fun p hp => ?_, ?_⟩
  · exact List.mem_range.mp (sampleSize_subset _ _ _ p hp)
  · unfold samplePositions
    rw [← sampleSize_map, ← sampleSize_map]
    congr 1
    apply List.ext_getElem?
    intro i
    by_cases hi : i < pool.length
    · simp [List.getElem?_eq_getElem hi, List.getElem?_range hi]
    · have hr : (List.range pool.length)[i]? = none :=
        List.getElem?_eq_none (by simp only [List.length_range]; omega)
      simp [List.getElem?_eq_none (Nat.le_of_not_lt hi), hr]

/-! ## Lemmas on the construction of the board -/

theorem fetchCategories_length (source : DataSource) (rand : Nat → Nat → Nat) (ids : List Nat) :
    ∀ i, (fetchCategories source rand i ids).length = ids.length := by
  induction ids with
  | nil => intro i; rfl
  | cons id ids ih => intro i; simp [fetchCategories, ih]

theorem fetchCategories_getElem? (source : DataSource) (rand : Nat → Nat → Nat)
    (ids : List Nat) :
    ∀ i j, (fetchCategories source rand i ids)[j]?
      = (ids[j]?).map fun id => getCategory source (rand (i + j)) id := by
  induction ids with
  | nil => intro i j; rfl
  | cons id ids ih =>
    intro i j
    cases j with
    | zero => simp [fetchCategories]
    | succ j =>
      simp only [fetchCategories, List.getElem?_cons_succ, ih]
      rw [show i + 1 + j = i + (j + 1) by omega]

theorem headerRow_of_mem_none : ∀ categories : Categories, none ∈ categories →
    headerRow categories = none
  | [], h => by simp at h
  | none :: _, _ => rfl
  | some category :: rest, h => by
    have hr : none ∈ rest := by simpa using h
    simp [headerRow, headerRow_of_mem_none rest hr]

theorem getCategory_eq_some {source : DataSource} {rand : Nat → Nat} {catId : Nat}
    {category : Category} (h : getCategory source rand catId = some category) :
    ∃ resp, source.category catId = some resp ∧
      category =
        { title := resp.title
          clues := (sampleSize rand resp.clues NUM_CLUES_PER_CAT).map fun c =>
            { question := c.question, answer := c.answer, showing := .null } } := by
  unfold getCategory at h
  split at h
  · cases h
  · rename_i resp hresp
    exact ⟨resp, hresp, (Option.some.inj h).symm⟩

theorem setupAndStart_categories (source : DataSource) (rand : Nat → Nat → Nat) (page : Page)
    (ids : List Nat) (h : getCategoryIds source (rand 0) = some ids) :
    setupAndStart source rand false page =
      { categories := fetchCategories source (fun i => rand (i + 1)) 0 ids
        table := fillTable (fetchCategories source (fun i => rand (i + 1)) 0 ids)
          (showLoadingView page.table) } := by
  simp [setupAndStart, h]

theorem getCategoryIds_eq (source : DataSource) (rand : Nat → Nat) (data : List CategoryEntry)
    (h : source.categories = some data) :
    getCategoryIds source rand
      = some (sampleSize rand (data.map fun c => c.id) NUM_CATEGORIES) := by
  simp [getCategoryIds, h]

theorem setupAndStart_length (source : DataSource) (rand : Nat → Nat → Nat) (page : Page)
    (data : List CategoryEntry) (h : source.categories = some data) :
    (setupAndStart source rand false page).categories.length
      = min NUM_CATEGORIES data.length := by
  rw [setupAndStart_categories source rand page _ (getCategoryIds_eq source (rand 0) data h)]
  simp only
  rw [fetchCategories_length, sampleSize_length, List.length_map]

theorem setupAndStart_entry (source : DataSource) (rand : Nat → Nat → Nat) (page : Page)
    (data : List CategoryEntry) (h : source.categories = some data) (i : Nat)
    (o : Option Category)
    (hi : (setupAndStart source rand false page).categories[i]? = some o) :
    ∃ entry ∈ data, o = getCategory source (rand (i + 1)) entry.id := by
  rw [setupAndStart_categories source rand page _ (getCategoryIds_eq source (rand 0) data h)]
    at hi
  simp only at hi
  rw [fetchCategories_getElem?] at hi
  cases hid : (sampleSize (rand 0) (data.map fun c => c.id) NUM_CATEGORIES)[i]? with
  | none => rw [hid] at hi; cases hi
  | some id =>
    rw [hid] at hi
    have hmem := sampleSize_subset _ _ _ id (List.getElem?_mem hid)
    obtain ⟨entry, he, rfl⟩ := List.mem_map.mp hmem
    refine ⟨entry, he, ?_⟩
    have := (Option.some.inj hi).symm
    simpa using this

/-- A data source with enough categories, and enough clues for each, gives a
board with a clue at every coordinate of the table. -/
theorem setupAndStart_full (source : DataSource) (rand : Nat → Nat → Nat) (page : Page)
    (data : List CategoryEntry) (h : source.categories = some data)
    (hsize : NUM_CATEGORIES ≤ data.length)
    (hclues : ∀ entry ∈ data, ∃ resp, source.category entry.id = some resp ∧
      NUM_CLUES_PER_CAT ≤ resp.clues.length)
    (c : Nat) (hc : c < NUM_CATEGORIES) (k : Nat) (hk : k < NUM_CLUES_PER_CAT) :
    (clueAt (setupAndStart source rand false page).categories c k).isSome = true := by
  have hlen := setupAndStart_length source rand page data h
  have hlt : c < (setupAndStart source rand false page).categories.length := by
    rw [hlen]; omega
  have hget := List.getElem?_eq_getElem hlt
  obtain ⟨entry, he, ho⟩ := setupAndStart_entry source rand page data h c _ hget
  obtain ⟨resp, hresp, hfive⟩ := hclues entry he
  rw [getCategory, hresp] at ho
  simp only at ho
  rw [ho] at hget
  rw [clueAt_of_getElem? hget]
  have hklt : k < ((sampleSize (rand (c + 1)) resp.clues NUM_CLUES_PER_CAT).map fun c =>
      ({ question := c.question, answer := c.answer, showing := .null } : Clue)).length := by
    rw [List.length_map, sampleSize_length]; omega
  rw [List.getElem?_eq_getElem hklt]
  rfl

theorem mem_bodyRows_flatten (id : JsString) :
    id ∈ bodyRows.flatten ↔
      ∃ c k : Nat, c < NUM_CATEGORIES ∧ k < NUM_CLUES_PER_CAT ∧ id = cellId c k := by
  simp only [bodyRows, List.mem_flatten, List.mem_map, List.mem_range]
  constructor
  · rintro ⟨row, ⟨k, hk, rfl⟩, hmem⟩
    simp only [List.mem_map, List.mem_range] at hmem
    obtain ⟨c, hc, rfl⟩ := hmem
    exact ⟨c, k, hc, hk, rfl⟩
  · rintro ⟨c, k, hc, hk, rfl⟩
    exact ⟨_, ⟨k, hk, rfl⟩, by simp only [List.mem_map, List.mem_range]; exact ⟨c, hc, rfl⟩⟩
/-! ## The click handler: transitions, frame, errors -/

/-- C1. A click on the cell of an existing clue follows the transition table
of the two non-terminal states: when `.showing` is null the target shows the
question and `.showing` becomes 'question'; when it is 'question' the target
shows the answer and `.showing` becomes 'answer'. -/
theorem handleClick_transition (categories : Categories) (c k : Nat) (clue : Clue)
    (h : clueAt categories c k = some clue) :
    (clue.showing = .null →
      (handleClick categories (some (cellId c k))).2
          = .ok (some { html := clue.question, disabled := false }) ∧
      clueAt (handleClick categories (some (cellId c k))).1 c k
          = some { clue with showing := .question }) ∧
    (clue.showing = .question →
      (handleClick categories (some (cellId c k))).2
          = .ok (some { html := clue.answer, disabled := true }) ∧
      clueAt (handleClick categories (some (cellId c k))).1 c k
          = some { clue with showing := .answer }) := by
  obtain ⟨category, hc, hk⟩ := clueAt_eq_some h
  rw [handleClick_cellId]
  simp only [hc, hk]
  constructor
  · intro hs
    simp [hs, clueAt_assignShowing hc hk]
  · intro hs
    simp [hs, clueAt_assignShowing hc hk]

/-- C1 on the example board: the first click on the hidden clue "2+2" shows the
question. -/
theorem handleClick_transition_witness :
    clueAt exampleBoard 0 0 = some { question := "2+2", answer := "4", showing := .null } ∧
    (handleClick exampleBoard (some (cellId 0 0))).2
        = .ok (some { html := "2+2", disabled := false }) ∧
    clueAt (handleClick exampleBoard (some (cellId 0 0))).1 0 0
        = some { question := "2+2", answer := "4", showing := .question } :=
  ⟨rfl, (handleClick_transition exampleBoard 0 0 _ rfl).1 rfl⟩

/-- C2. On a clue whose `.showing` is 'answer', any number of clicks on its
cell leaves the whole board as it was, and every call ignores the click
(no update of the target). -/
theorem handleClicks_answer (categories : Categories) (c k : Nat) (clue : Clue)
    (h : clueAt categories c k = some clue) (ha : clue.showing = .answer) (n : Nat) :
    handleClicks categories (List.replicate n (some (cellId c k)))
      = List.replicate n (categories, .ok none) := by
  obtain ⟨category, hc, hk⟩ := clueAt_eq_some h
  have h1 : handleClick categories (some (cellId c k)) = (categories, .ok none) := by
    rw [handleClick_cellId]
    simp only [hc, hk, ha]
  induction n with
  | zero => rfl
  | succ n ih =>
    simp only [List.replicate_succ, handleClicks, h1, ih]

/-- C2 on the example board: three clicks on the answered clue "1+1". -/
theorem handleClicks_answer_witness :
    handleClicks exampleBoard (List.replicate 3 (some (cellId 0 1)))
      = List.replicate 3 (exampleBoard, .ok none) :=
  handleClicks_answer exampleBoard 0 1 _ rfl rfl 3

theorem step_handleClick (categories : Categories) (id : Option JsString) (i j : Nat) :
    Showing.step (showingAt categories i j) (showingAt (handleClick categories id).1 i j) := by
  rcases showingAt_handleClick categories id i j with h | ⟨a, b, ha, hb, hr⟩
  · exact Or.inl h
  · rw [ha, hb]
    cases a <;> cases b <;> simp [Showing.rank] at hr
    · exact Or.inr (Or.inl ⟨rfl, rfl⟩)
    · exact Or.inr (Or.inr ⟨rfl, rfl⟩)

theorem chain_statesVisited (ids : List (Option JsString)) (i j : Nat) :
    ∀ categories : Categories,
      List.Chain Showing.step (showingAt categories i j)
        (((handleClicks categories ids).map Prod.fst).map fun board => showingAt board i j) := by
  induction ids with
  | nil => intro categories; exact List.Chain.nil
  | cons id ids ih =>
    intro categories
    simp only [handleClicks, List.map_cons]
    exact List.Chain.cons (step_handleClick categories id i j) (ih _)

theorem destutter_chain (l : List (Option Showing)) :
    ∀ s : Showing, List.Chain Showing.step (some s) l →
      List.destutter' (· ≠ ·) (some s) l <+: s.ahead := by
  induction l with
  | nil =>
    intro s _
    cases s <;> simp [Showing.ahead]
  | cons t l ih =>
    intro s hch
    rw [List.chain_cons] at hch
    obtain ⟨hst, hl⟩ := hch
    rcases hst with h | ⟨h1, h2⟩ | ⟨h1, h2⟩
    · subst h
      rw [List.destutter'_cons_neg _ (by simp)]
      exact ih s hl
    · subst h2
      cases h1
      rw [List.destutter'_cons_pos _ (by simp)]
      have := ih .question hl
      simpa [Showing.ahead] using this
    · subst h2
      cases h1
      rw [List.destutter'_cons_pos _ (by simp)]
      have := ih .answer hl
      simpa [Showing.ahead] using this

/-- C3. From a clue whose `.showing` is null (every clue of a fresh board),
over any sequence of clicks on cells, the states the clue goes through are,
repetitions apart, a prefix of null, 'question', 'answer'; and on any board
no click moves a clue backward: the state after a click is the state before
or the next one. -/
theorem showing_monotonic (categories : Categories) (coords : List (Int × Int)) (c k : Nat)
    (clue : Clue) (h : clueAt categories c k = some clue) (hs : clue.showing = .null) :
    List.destutter (· ≠ ·)
        (statesVisited categories (coords.map fun p => some (cellId p.1 p.2)) c k)
      <+: [some .null, some .question, some .answer] ∧
    ∀ (board : Categories) (id : Option JsString) (a : Showing),
      showingAt board c k = some a →
        ∃ b, showingAt (handleClick board id).1 c k = some b ∧
          a.rank ≤ b.rank ∧ b.rank ≤ a.rank + 1 := by
  constructor
  · have h0 : showingAt categories c k = some .null := by
      simp [showingAt, h, hs]
    have hch := chain_statesVisited (coords.map fun p => some (cellId p.1 p.2)) c k categories
    rw [h0] at hch
    simp only [statesVisited, List.map_cons, List.destutter_cons', h0]
    exact destutter_chain _ _ hch
  · intro board id a ha
    rcases showingAt_handleClick board id c k with h1 | ⟨a', b, ha', hb, hr⟩
    · exact ⟨a, by rw [h1, ha], le_refl _, by omega⟩
    · rw [ha] at ha'
      cases ha'
      exact ⟨b, hb, by omega, by omega⟩

/-- C3 on the example board, over five clicks of which one is off the board. -/
theorem showing_monotonic_witness :
    List.destutter (· ≠ ·)
        (statesVisited exampleBoard
          ([(0, 0), (0, 1), (0, 0), (5, 0), (0, 0)].map fun p => some (cellId p.1 p.2)) 0 0)
      <+: [some .null, some .question, some .answer] :=
  (showing_monotonic exampleBoard [(0, 0), (0, 1), (0, 0), (5, 0), (0, 0)] 0 0 _ rfl rfl).1

/-- C4. A click on the cell of an existing clue changes at most the
`.showing` of that clue: the number of categories, every title, the number of
clues of every category, the question and answer of every clue, and the whole
of every clue at another coordinate are as before. -/
theorem handleClick_frame (categories : Categories) (c k : Nat) (clue : Clue)
    (h : clueAt categories c k = some clue) :
    (handleClick categories (some (cellId c k))).1.length = categories.length ∧
    (∀ i : Nat, ((handleClick categories (some (cellId c k))).1[i]?).map (Option.map Category.title)
        = (categories[i]?).map (Option.map Category.title)) ∧
    (∀ i : Nat, ((handleClick categories (some (cellId c k))).1[i]?).map
          (Option.map fun (category : Category) => category.clues.length)
        = (categories[i]?).map (Option.map fun (category : Category) => category.clues.length)) ∧
    (∀ i j : Nat, (clueAt (handleClick categories (some (cellId c k))).1 i j).map Clue.question
          = (clueAt categories i j).map Clue.question ∧
        (clueAt (handleClick categories (some (cellId c k))).1 i j).map Clue.answer
          = (clueAt categories i j).map Clue.answer) ∧
    (∀ i j : Nat, (i, j) ≠ (c, k) →
        clueAt (handleClick categories (some (cellId c k))).1 i j = clueAt categories i j) := by
  obtain ⟨category, hc, hk⟩ := clueAt_eq_some h
  have key : (handleClick categories (some (cellId c k))).1 = categories ∨
      ∃ v, (handleClick categories (some (cellId c k))).1
        = assignShowing categories c category k clue v := by
    rw [handleClick_cellId]
    simp only [hc, hk]
    cases clue.showing
    · exact Or.inr ⟨_, rfl⟩
    · exact Or.inr ⟨_, rfl⟩
    · exact Or.inl rfl
  rcases key with e | ⟨v, e⟩
  · rw [e]
    exact ⟨rfl, fun _ => rfl, fun _ => rfl, fun _ _ => ⟨rfl, rfl⟩, fun _ _ _ => rfl⟩
  · rw [e]
    refine ⟨length_assignShowing _ _ _ _ _ _, fun i => (getElem?_assignShowing hc clue v i).1,
      fun i => (getElem?_assignShowing hc clue v i).2, fun i j => ?_, fun i j hij => ?_⟩
    · rw [clueAt_assignShowing hc hk]
      by_cases hij : i = c ∧ j = k
      · obtain ⟨rfl, rfl⟩ := hij
        simp [h]
      · simp [hij]
    · rw [clueAt_assignShowing hc hk]
      have : ¬(i = c ∧ j = k) := fun ⟨h1, h2⟩ => hij (by rw [h1, h2])
      simp [this]

/-- C4 on the example board: the click on the first clue leaves the second
as it was. -/
theorem handleClick_frame_witness :
    (handleClick exampleBoard (some (cellId 0 0))).1.length = exampleBoard.length ∧
    clueAt (handleClick exampleBoard (some (cellId 0 0))).1 0 1 = clueAt exampleBoard 0 1 :=
  ⟨(handleClick_frame exampleBoard 0 0 _ rfl).1,
    (handleClick_frame exampleBoard 0 0 _ rfl).2.2.2.2 0 1 (by decide)⟩

theorem split_dash_cons (s : JsString) : split ('-' :: s) = [] :: split s := by
  simp [split]

theorem handleClick_negative_category (categories : Categories) (n : Nat) (k : Int) :
    handleClick categories (some (cellId (Int.negSucc n) k)) = (categories, .error .typeError) := by
  simp only [handleClick, cellId, numberToString, List.cons_append, split_dash_cons,
    List.getElem?_cons_zero, propertyAt, arrayIndex_nil]

theorem handleClick_negative_clue (categories : Categories) (m n : Nat) :
    handleClick categories (some (cellId (Int.ofNat m) (Int.negSucc n)))
      = (categories, .error .typeError) := by
  simp only [handleClick, cellId, numberToString]
  rw [split_append_dash _ _ (toDigits_no_dash m), split_dash_cons]
  simp only [List.getElem?_cons_zero, List.getElem?_cons_succ, propertyAt_toDigits]
  cases hc : categories[m]? with
  | none => rfl
  | some oc =>
    cases oc with
    | none => rfl
    | some cat => simp [propertyAt, arrayIndex_nil]

/-- C5. A click at a coordinate outside the board (a category index below
zero or not below the number of categories, or a clue index below zero or not
below the number of clues of that category) raises an error instead of
returning, and leaves the board as it was. -/
theorem handleClick_out_of_range (categories : Categories) (c k : Int)
    (h : c < 0 ∨ (categories.length : Int) ≤ c ∨
      ∀ category, categories[c.toNat]? = some (some category) →
        k < 0 ∨ (category.clues.length : Int) ≤ k) :
    handleClick categories (some (cellId c k)) = (categories, .error .typeError) := by
  cases c with
  | negSucc n => exact handleClick_negative_category categories n k
  | ofNat m =>
    cases k with
    | negSucc n => exact handleClick_negative_clue categories m n
    | ofNat n =>
      have e := handleClick_cellId categories m n
      simp only [Int.ofNat_eq_coe] at h ⊢
      rw [e]
      rcases h with h | h | h
      · omega
      · have : categories[m]? = none := List.getElem?_eq_none (by omega)
        simp [this]
      · simp only [Int.toNat_ofNat] at h
        cases hc : categories[m]? with
        | none => rfl
        | some oc =>
          cases oc with
          | none => rfl
          | some cat =>
            have hk := h cat hc
            have : cat.clues[n]? = none := List.getElem?_eq_none (by omega)
            simp [this]

/-- C5 on the example board: the click at category 5 of a board of one
category. -/
theorem handleClick_out_of_range_witness :
    handleClick exampleBoard (some (cellId 5 0)) = (exampleBoard, .error .typeError) :=
  handleClick_out_of_range exampleBoard 5 0 (Or.inr (Or.inl (by decide)))

/-! ## The construction of the board: dimensions, failures, initial state -/

/-- C6, as the code has it. The build never fails on a short pool. When the
`categories` request succeeds, the board has as many entries as the smaller of
`NUM_CATEGORIES` and the number of categories returned, and every category of
the board has as many clues as the smaller of `NUM_CLUES_PER_CAT` and the
number of clues returned for it.  The board has exactly `NUM_CATEGORIES`
categories of exactly `NUM_CLUES_PER_CAT` clues when the source returns at
least that many categories and, for each of them, at least that many clues. -/
theorem setupAndStart_dimensions (source : DataSource) (rand : Nat → Nat → Nat) (page : Page)
    (data : List CategoryEntry) (h : source.categories = some data) :
    (setupAndStart source rand false page).categories.length
        = min NUM_CATEGORIES data.length ∧
    (∀ (i : Nat) (category : Category),
      (setupAndStart source rand false page).categories[i]? = some (some category) →
        ∃ entry ∈ data, ∃ resp, source.category entry.id = some resp ∧
          category.clues.length = min NUM_CLUES_PER_CAT resp.clues.length) ∧
    (NUM_CATEGORIES ≤ data.length →
      (∀ entry ∈ data, ∃ resp, source.category entry.id = some resp ∧
        NUM_CLUES_PER_CAT ≤ resp.clues.length) →
      (setupAndStart source rand false page).categories.length = NUM_CATEGORIES ∧
      ∀ c ∈ (setupAndStart source rand false page).categories,
        ∃ category, c = some category ∧ category.clues.length = NUM_CLUES_PER_CAT) := by
  have hlen := setupAndStart_length source rand page data h
  refine ⟨hlen, ?_, ?_⟩
  · intro i category hi
    obtain ⟨entry, he, hget⟩ := setupAndStart_entry source rand page data h i _ hi
    obtain ⟨resp, hresp, hcat⟩ := getCategory_eq_some hget.symm
    refine ⟨entry, he, resp, hresp, ?_⟩
    rw [hcat]
    simp only [List.length_map, sampleSize_length]
  · intro hsize hclues
    refine ⟨by rw [hlen]; omega, ?_⟩
    intro c hc
    obtain ⟨i, hi⟩ := List.mem_iff_getElem?.mp hc
    obtain ⟨entry, he, hget⟩ := setupAndStart_entry source rand page data h i _ hi
    obtain ⟨resp, hresp, hfive⟩ := hclues entry he
    refine ⟨_, by rw [hget, getCategory, hresp], ?_⟩
    simp only [List.length_map, sampleSize_length]
    omega

/-- C6 with a data source of eight categories of seven clues: a board of six
categories of five clues. -/
theorem setupAndStart_dimensions_witness :
    fullSource.categories = some exampleEntries ∧
    (setupAndStart fullSource firstDraws false emptyPage).categories.length = NUM_CATEGORIES ∧
    ∀ c ∈ (setupAndStart fullSource firstDraws false emptyPage).categories,
      ∃ category, c = some category ∧ category.clues.length = NUM_CLUES_PER_CAT :=
  ⟨rfl, (setupAndStart_dimensions fullSource firstDraws emptyPage exampleEntries rfl).2.2
    (by decide) (fun _ _ => ⟨_, rfl, by decide⟩)⟩

/-- C6 fails as stated: with a data source that answers every request and
returns two clues for a selected category, the build completes, renders the
table, and yields a board whose first category has two clues. -/
theorem setupAndStart_short_board :
    shortSource.categories.isSome = true ∧
    (∀ id < 8, (shortSource.category id).isSome = true) ∧
    (setupAndStart shortSource firstDraws false emptyPage).categories.map
        (Option.map fun (category : Category) => category.clues.length)
      = [some 2, some 5, some 5, some 5, some 5, some 5] ∧
    (setupAndStart shortSource firstDraws false emptyPage).table.tbody = bodyRows := by
  decide

/-- C7, as the code has it. When the request for the category at position
`i` fails, `getCategory` returns `undefined` and the build goes on: the board
has one entry for each selected id, `undefined` at position `i` and at every
other position what `getCategory` returned for it; nothing is raised.
`fillTable` then stops at the `undefined` entry before it renders anything, so
the table has no header and no cell. -/
theorem setupAndStart_failed_fetch (source : DataSource) (rand : Nat → Nat → Nat) (page : Page)
    (ids : List Nat) (i id : Nat) (hids : getCategoryIds source (rand 0) = some ids)
    (hi : ids[i]? = some id) (hfail : source.category id = none) :
    (setupAndStart source rand false page).categories.length = ids.length ∧
    (setupAndStart source rand false page).categories[i]? = some none ∧
    (∀ (j id' : Nat), ids[j]? = some id' →
      (setupAndStart source rand false page).categories[j]?
        = some (getCategory source (rand (j + 1)) id')) ∧
    (setupAndStart source rand false page).table = { thead := [], tbody := [] } := by
  rw [setupAndStart_categories source rand page ids hids]
  simp only
  have hget : ∀ (j id' : Nat), ids[j]? = some id' →
      (fetchCategories source (fun i => rand (i + 1)) 0 ids)[j]?
        = some (getCategory source (rand (j + 1)) id') := by
    intro j id' hj
    rw [fetchCategories_getElem?, hj]
    simp
  have hnone : (fetchCategories source (fun i => rand (i + 1)) 0 ids)[i]? = some none := by
    rw [hget i id hi, getCategory, hfail]
  refine ⟨fetchCategories_length _ _ _ _, hnone, hget, ?_⟩
  rw [fillTable, headerRow_of_mem_none _ (List.getElem?_mem hnone)]
  rfl

/-- C7 with a data source whose request for the second selected category
fails. -/
theorem setupAndStart_failed_fetch_witness :
    getCategoryIds failingSource (firstDraws 0) = some [0, 1, 2, 3, 4, 5] ∧
    failingSource.category 1 = none ∧
    (setupAndStart failingSource firstDraws false emptyPage).categories[1]? = some none ∧
    (setupAndStart failingSource firstDraws false emptyPage).table
      = { thead := [], tbody := [] } :=
  ⟨rfl, rfl,
    (setupAndStart_failed_fetch failingSource firstDraws emptyPage [0, 1, 2, 3, 4, 5] 1 1
      rfl rfl rfl).2.1,
    (setupAndStart_failed_fetch failingSource firstDraws emptyPage [0, 1, 2, 3, 4, 5] 1 1
      rfl rfl rfl).2.2.2⟩

/-- C7 fails as stated: when the request for the second selected category
fails, the build still yields a board of six entries, which keeps the first
category and holds `undefined` in second place. -/
theorem setupAndStart_keeps_fetched_categories :
    failingSource.category 1 = none ∧
    getCategoryIds failingSource (firstDraws 0) = some [0, 1, 2, 3, 4, 5] ∧
    (setupAndStart failingSource firstDraws false emptyPage).categories.map Option.isSome
      = [true, false, true, true, true, true] := by
  decide

theorem clueAt_mem {categories : Categories} {i j : Nat} {clue : Clue}
    (h : clueAt categories i j = some clue) :
    ∃ category, categories[i]? = some (some category) ∧ clue ∈ category.clues := by
  obtain ⟨category, hc, hk⟩ := clueAt_eq_some h
  exact ⟨category, hc, List.getElem?_mem hk⟩

/-- C8. Every clue of the category that `getCategory` returns has `.showing`
null, and its question and answer are those of the source clue selected at the
same place, a clue of the response; hence every clue of the board that
`setupAndStart` builds has `.showing` null. -/
theorem clues_start_hidden (source : DataSource) :
    (∀ (rand : Nat → Nat) (catId : Nat) (category : Category),
      getCategory source rand catId = some category →
        ∃ resp, source.category catId = some resp ∧
          category.clues.map
              (fun clue => ({ question := clue.question, answer := clue.answer } : SourceClue))
            = sampleSize rand resp.clues NUM_CLUES_PER_CAT ∧
          ∀ clue ∈ category.clues, clue.showing = .null ∧
            ∃ c ∈ resp.clues, clue.question = c.question ∧ clue.answer = c.answer) ∧
    (∀ (rand : Nat → Nat → Nat) (page : Page) (i j : Nat) (clue : Clue),
      clueAt (setupAndStart source rand false page).categories i j = some clue →
        clue.showing = .null) := by
  have part1 : ∀ (rand : Nat → Nat) (catId : Nat) (category : Category),
      getCategory source rand catId = some category →
        ∃ resp, source.category catId = some resp ∧
          category.clues.map
              (fun clue => ({ question := clue.question, answer := clue.answer } : SourceClue))
            = sampleSize rand resp.clues NUM_CLUES_PER_CAT ∧
          ∀ clue ∈ category.clues, clue.showing = .null ∧
            ∃ c ∈ resp.clues, clue.question = c.question ∧ clue.answer = c.answer := by
    intro rand catId category h
    obtain ⟨resp, hresp, hcat⟩ := getCategory_eq_some h
    refine ⟨resp, hresp, ?_, ?_⟩
    · rw [hcat]
      simp [Function.comp_def]
    · intro clue hclue
      rw [hcat] at hclue
      simp only [List.mem_map] at hclue
      obtain ⟨c, hc, rfl⟩ := hclue
      exact ⟨rfl, c, sampleSize_subset _ _ _ c hc, rfl, rfl⟩
  refine ⟨part1, ?_⟩
  intro rand page i j clue h
  cases hids : getCategoryIds source (rand 0) with
  | none =>
    have : (setupAndStart source rand false page).categories = [] := by
      simp [setupAndStart, hids]
    rw [this] at h
    simp [clueAt] at h
  | some ids =>
    rw [setupAndStart_categories source rand page ids hids] at h
    obtain ⟨category, hc, hmem⟩ := clueAt_mem h
    simp only at hc
    rw [fetchCategories_getElem?] at hc
    cases hid : ids[i]? with
    | none => rw [hid] at hc; cases hc
    | some id =>
      rw [hid] at hc
      have hget : getCategory source (rand (0 + i + 1)) id = some category :=
        Option.some.inj hc
      obtain ⟨_, _, _, hall⟩ := part1 _ _ _ hget
      exact (hall clue hmem).1

/-- C8 on a board built from the full data source: the clue at (2, 3). -/
theorem clues_start_hidden_witness :
    clueAt (setupAndStart fullSource firstDraws false emptyPage).categories 2 3
      = some { question := "d", answer := "a", showing := .null } ∧
    ({ question := "d", answer := "a", showing := .null } : Clue).showing = .null :=
  ⟨rfl, (clues_start_hidden fullSource).2 firstDraws emptyPage 2 3 _ rfl⟩

theorem toClue_injective :
    Function.Injective fun (c : SourceClue) =>
      ({ question := c.question, answer := c.answer, showing := .null } : Clue) := by
  intro a b hab
  cases a; cases b
  simp only [Clue.mk.injEq, and_true] at hab
  simp [hab.1, hab.2]

/-- C9. The ids that `getCategoryIds` selects and the clues that
`getCategory` selects are read at pairwise distinct positions of their pool
(the ids of the response, the clues of the response); so the selected ids are
pairwise distinct when the ids of the pool are, and the clues of a category
are pairwise distinct when the clues of the pool are. -/
theorem sampling_without_replacement (source : DataSource) (rand : Nat → Nat) :
    (∀ (data : List CategoryEntry) (ids : List Nat),
      source.categories = some data → getCategoryIds source rand = some ids →
        ∃ positions : List Nat, positions.Nodup ∧ (∀ p ∈ positions, p < data.length) ∧
          ids.map some = positions.map (fun p => (data[p]?).map fun entry => entry.id) ∧
          ((data.map fun entry => entry.id).Nodup → ids.Nodup)) ∧
    (∀ (catId : Nat) (resp : CategoryData) (category : Category),
      source.category catId = some resp → getCategory source rand catId = some category →
        ∃ positions : List Nat, positions.Nodup ∧ (∀ p ∈ positions, p < resp.clues.length) ∧
          category.clues.map some
            = positions.map (fun p => (resp.clues[p]?).map fun c =>
                ({ question := c.question, answer := c.answer, showing := .null } : Clue)) ∧
          (resp.clues.Nodup → category.clues.Nodup)) := by
  constructor
  · intro data ids hdata hids
    rw [getCategoryIds_eq source rand data hdata] at hids
    have hids' := (Option.some.inj hids).symm
    obtain ⟨hnd, hlt, hpos⟩ :=
      sampleSize_positions rand (data.map fun entry => entry.id) NUM_CATEGORIES
    rw [List.length_map] at hnd hlt hpos
    refine ⟨_, hnd, hlt, ?_, ?_⟩
    · rw [hids', hpos]
      apply List.map_congr_left
      intro p _
      simp
    · intro hpool
      rw [hids']
      exact sampleSize_nodup _ _ _ hpool
  · intro catId resp category hresp hcat
    obtain ⟨resp', hresp', hc⟩ := getCategory_eq_some hcat
    rw [hresp] at hresp'
    cases hresp'
    obtain ⟨hnd, hlt, hpos⟩ := sampleSize_positions rand resp.clues NUM_CLUES_PER_CAT
    refine ⟨_, hnd, hlt, ?_, ?_⟩
    · rw [hc]
      simp only
      rw [← sampleSize_map, ← sampleSize_map]
      unfold samplePositions
      rw [← sampleSize_map]
      congr 1
      apply List.ext_getElem?
      intro i
      by_cases hi : i < resp.clues.length
      · simp [List.getElem?_eq_getElem hi, List.getElem?_range hi]
      · have hr : (List.range resp.clues.length)[i]? = none :=
          List.getElem?_eq_none (by simp only [List.length_range]; omega)
        simp [List.getElem?_eq_none (Nat.le_of_not_lt hi), hr]
    · intro hpool
      rw [hc]
      exact (sampleSize_nodup _ _ _ hpool).map toClue_injective

/-- C9 on the ids selected from the catalog of eight categories. -/
theorem sampling_without_replacement_witness :
    fullSource.categories = some exampleEntries ∧
    getCategoryIds fullSource (firstDraws 0) = some [0, 1, 2, 3, 4, 5] ∧
    ∃ positions : List Nat, positions.Nodup ∧ (∀ p ∈ positions, p < exampleEntries.length) ∧
      [0, 1, 2, 3, 4, 5].map some
        = positions.map (fun p => (exampleEntries[p]?).map fun entry => entry.id) ∧
      ((exampleEntries.map fun entry => entry.id).Nodup → [0, 1, 2, 3, 4, 5].Nodup) :=
  ⟨rfl, rfl,
    (sampling_without_replacement fullSource (firstDraws 0)).1 exampleEntries _ rfl rfl⟩

theorem renderedCells_setupAndStart (source : DataSource) (rand : Nat → Nat → Nat) (page : Page)
    (id : JsString) (h : id ∈ renderedCells (setupAndStart source rand false page).table) :
    ∃ c k : Nat, c < NUM_CATEGORIES ∧ k < NUM_CLUES_PER_CAT ∧ id = cellId c k := by
  cases hids : getCategoryIds source (rand 0) with
  | none =>
    have : (setupAndStart source rand false page).table = { thead := [], tbody := [] } := by
      simp [setupAndStart, hids, showLoadingView]
    rw [this] at h
    simp [renderedCells] at h
  | some ids =>
    rw [setupAndStart_categories source rand page ids hids] at h
    simp only [fillTable, showLoadingView] at h
    split at h
    · simp [renderedCells] at h
    · exact (mem_bodyRows_flatten id).mp h

theorem clueAt_isSome_handleClick (categories : Categories) (id : Option JsString) (i j : Nat)
    (h : (clueAt categories i j).isSome = true) :
    (clueAt (handleClick categories id).1 i j).isSome = true := by
  have e : ∀ board : Categories, (clueAt board i j).isSome = (showingAt board i j).isSome := by
    intro board
    simp [showingAt]
  rw [e] at h ⊢
  rcases showingAt_handleClick categories id i j with h1 | ⟨a, b, _, hb, _⟩
  · rw [h1]; exact h
  · rw [hb]; rfl

theorem handleClick_ok_of_clue (categories : Categories) (c k : Nat)
    (h : (clueAt categories c k).isSome = true) :
    ∃ update, (handleClick categories (some (cellId c k))).2 = .ok update := by
  obtain ⟨clue, hclue⟩ := Option.isSome_iff_exists.mp h
  obtain ⟨category, hcat, hk⟩ := clueAt_eq_some hclue
  rw [handleClick_cellId]
  simp only [hcat, hk]
  cases clue.showing
  · exact ⟨_, rfl⟩
  · exact ⟨_, rfl⟩
  · exact ⟨_, rfl⟩

/-- On a board with a clue at every coordinate of the table, the clicks on
cells, one after the other, all return, and every board on the way has a
clue at every coordinate of the table. -/
theorem handleClicks_on_cells (ids : List JsString) :
    ∀ categories : Categories,
      (∀ c < NUM_CATEGORIES, ∀ k < NUM_CLUES_PER_CAT,
        (clueAt categories c k).isSome = true) →
      (∀ id ∈ ids, ∃ c k : Nat, c < NUM_CATEGORIES ∧ k < NUM_CLUES_PER_CAT ∧ id = cellId c k) →
      ∀ r ∈ handleClicks categories (ids.map some),
        (∃ update, r.2 = .ok update) ∧
        ∀ c < NUM_CATEGORIES, ∀ k < NUM_CLUES_PER_CAT, (clueAt r.1 c k).isSome = true := by
  induction ids with
  | nil =>
    intro categories _ _ r hr
    simp [handleClicks] at hr
  | cons id ids ih =>
    intro categories hfull hids r hr
    have hnext : ∀ c < NUM_CATEGORIES, ∀ k < NUM_CLUES_PER_CAT,
        (clueAt (handleClick categories (some id)).1 c k).isSome = true :=
      fun c hc k hk => clueAt_isSome_handleClick categories (some id) c k (hfull c hc k hk)
    simp only [List.map_cons, handleClicks, List.mem_cons] at hr
    rcases hr with hr | hr
    · subst hr
      obtain ⟨c, k, hc, hk, rfl⟩ := hids id (List.mem_cons_self _ _)
      exact ⟨handleClick_ok_of_clue categories c k (hfull c hc k hk), hnext⟩
    · exact ih _ hnext (fun id' hid' => hids id' (List.mem_cons_of_mem _ hid')) r hr

/-- C10, as the code has it. The id written for a cell is decoded by the
split on `-` into the keys of its two indices, whatever the indices.  The
cells rendered after a build are those of the coordinates below
`NUM_CATEGORIES` and `NUM_CLUES_PER_CAT`.  When the board has a clue at each of
these coordinates, every rendered cell addresses an existing clue, and over
any sequence of clicks whose target is a rendered cell itself (the element
that carries the id) every call of the handler returns without raising and
every rendered cell still addresses an existing clue afterwards.  The board
has a clue at each of these coordinates when the source returns at least
`NUM_CATEGORIES` categories and, for each of them, at least
`NUM_CLUES_PER_CAT` clues. -/
theorem rendered_cells_on_full_board (source : DataSource) (rand : Nat → Nat → Nat)
    (page : Page) :
    (∀ catIdx clueIdx : Nat,
      (split (cellId catIdx clueIdx)).map arrayIndex = [some catIdx, some clueIdx]) ∧
    (∀ id ∈ renderedCells (setupAndStart source rand false page).table,
      ∃ c k : Nat, c < NUM_CATEGORIES ∧ k < NUM_CLUES_PER_CAT ∧ id = cellId c k) ∧
    ((∀ c < NUM_CATEGORIES, ∀ k < NUM_CLUES_PER_CAT,
        (clueAt (setupAndStart source rand false page).categories c k).isSome = true) →
      (∀ id ∈ renderedCells (setupAndStart source rand false page).table,
        ∃ (c k : Nat) (clue : Clue), id = cellId c k ∧
          clueAt (setupAndStart source rand false page).categories c k = some clue) ∧
      ∀ ids : List JsString,
        (∀ id ∈ ids, id ∈ renderedCells (setupAndStart source rand false page).table) →
        ∀ r ∈ handleClicks (setupAndStart source rand false page).categories (ids.map some),
          (∃ update, r.2 = .ok update) ∧
          ∀ id ∈ renderedCells (setupAndStart source rand false page).table,
            ∃ (c k : Nat) (clue : Clue), id = cellId c k ∧ clueAt r.1 c k = some clue) ∧
    (∀ data : List CategoryEntry, source.categories = some data →
      NUM_CATEGORIES ≤ data.length →
      (∀ entry ∈ data, ∃ resp, source.category entry.id = some resp ∧
        NUM_CLUES_PER_CAT ≤ resp.clues.length) →
      ∀ c < NUM_CATEGORIES, ∀ k < NUM_CLUES_PER_CAT,
        (clueAt (setupAndStart source rand false page).categories c k).isSome = true) := by
  have addressed : ∀ board : Categories,
      (∀ c < NUM_CATEGORIES, ∀ k < NUM_CLUES_PER_CAT, (clueAt board c k).isSome = true) →
      ∀ id ∈ renderedCells (setupAndStart source rand false page).table,
        ∃ (c k : Nat) (clue : Clue), id = cellId c k ∧ clueAt board c k = some clue := by
    intro board hboard id hid
    obtain ⟨c, k, hc, hk, rfl⟩ := renderedCells_setupAndStart source rand page id hid
    obtain ⟨clue, hclue⟩ := Option.isSome_iff_exists.mp (hboard c hc k hk)
    exact ⟨c, k, clue, rfl, hclue⟩
  refine ⟨fun catIdx clueIdx => ?_, renderedCells_setupAndStart source rand page, ?_,
    fun data h hsize hclues c hc k hk =>
      setupAndStart_full source rand page data h hsize hclues c hc k hk⟩
  · rw [split_cellId_nat]
    simp [arrayIndex_toDigits]
  · intro hfull
    refine ⟨addressed _ hfull, ?_⟩
    intro ids hids r hr
    have hall := handleClicks_on_cells ids _ hfull
      (fun id hid => renderedCells_setupAndStart source rand page id (hids id hid)) r hr
    exact ⟨hall.1, addressed _ hall.2⟩

/-- C10 on a board built from the full data source: four clicks on the last
cell, `5-4`, and one on the first, `0-0`. -/
theorem rendered_cells_on_full_board_witness :
    (∀ c < NUM_CATEGORIES, ∀ k < NUM_CLUES_PER_CAT,
      (clueAt (setupAndStart fullSource firstDraws false emptyPage).categories c k).isSome
        = true) ∧
    (∀ id ∈ [cellId 5 4, cellId 5 4, cellId 0 0, cellId 5 4, cellId 5 4],
      id ∈ renderedCells (setupAndStart fullSource firstDraws false emptyPage).table) ∧
    ∀ r ∈ handleClicks (setupAndStart fullSource firstDraws false emptyPage).categories
        ([cellId 5 4, cellId 5 4, cellId 0 0, cellId 5 4, cellId 5 4].map some),
      (∃ update, r.2 = .ok update) ∧
      ∀ id ∈ renderedCells (setupAndStart fullSource firstDraws false emptyPage).table,
        ∃ (c k : Nat) (clue : Clue), id = cellId c k ∧ clueAt r.1 c k = some clue :=
  ⟨by decide, by decide,
    ((rendered_cells_on_full_board fullSource firstDraws emptyPage).2.2.1 (by decide)).2 _
      (by decide)⟩

/-- C10 fails as stated: after a build from a data source that returns two
clues for the first selected category, the table has the cell `0-4`, the
board has no clue at that coordinate, and the click on the cell raises. -/
theorem rendered_cell_without_clue :
    cellId 0 4 ∈ renderedCells (setupAndStart shortSource firstDraws false emptyPage).table ∧
    clueAt (setupAndStart shortSource firstDraws false emptyPage).categories 0 4 = none ∧
    handleClick (setupAndStart shortSource firstDraws false emptyPage).categories
        (some (cellId 0 4))
      = ((setupAndStart shortSource firstDraws false emptyPage).categories,
          .error .typeError) :=
  ⟨by decide, rfl, rfl⟩

end Jeopardy
